import Mathlib

/-!
# Verification of the `dnuz` extraction pipeline (`src/cmd/root.go`)

A byte-level shallow embedding of the program: the encoding resolver
(`getEncoding`, `getDecoder`, `getEncoder`), the per-entry name resolution
(decode, lower-case, join, re-encode) and the materialization loop of
`RootCmd.Run`.  Go strings are modelled as lists of byte values
(`Bytes := List Nat`), Unicode code points as `Nat`.  The Go standard
library functions the source calls (`unicode/utf8`, `strings.ToLower`,
`path/filepath.Clean`/`Join`/`Dir`, and the `x/text` charmap tables for
`CodePage866` and `Windows1251`) are embedded alongside, restricted where
noted to the repertoire this program can exercise.
-/

namespace Dnuz

/-- Go byte strings: a list of byte values (each `< 256`). -/
abbrev Bytes := List Nat

def slashB : Nat := 0x2F

def dotB : Nat := 0x2E

/-! ## UTF-8 (Go `unicode/utf8` semantics) -/

/-- UTF-8 encoding of one code point (as produced by Go when converting a
rune to a string). -/
def utf8Encode (r : Nat) : Bytes :=
  if r < 0x80 then [r]
  else if r < 0x800 then [0xC0 + r / 0x40, 0x80 + r % 0x40]
  else if r < 0x10000 then
    [0xE0 + r / 0x1000, 0x80 + (r / 0x40) % 0x40, 0x80 + r % 0x40]
  else
    [0xF0 + r / 0x40000, 0x80 + (r / 0x1000) % 0x40, 0x80 + (r / 0x40) % 0x40,
      0x80 + r % 0x40]

/-- The length a well-formed UTF-8 sequence starting with byte `b0` would
have (Go `utf8.FullRune` uses this to distinguish truncated from invalid
input). -/
def utf8LeadLen (b0 : Nat) : Nat :=
  if b0 < 0x80 then 1 else if b0 < 0xE0 then 2 else if b0 < 0xF0 then 3 else 4

/-- Go `utf8.DecodeRune`: decode the first rune of a byte sequence,
returning the code point and the number of bytes consumed, or `none` when
the head of the sequence is not a valid encoding (overlong forms,
surrogates and out-of-range values rejected as in Go). -/
def utf8DecodeOne : Bytes → Option (Nat × Nat)
  | [] => none
  | b0 :: rest =>
    if b0 < 0x80 then some (b0, 1)
    else if b0 < 0xC2 ∨ 0xF5 ≤ b0 then none
    else if b0 < 0xE0 then
      match rest with
      | b1 :: _ =>
        if 0x80 ≤ b1 ∧ b1 < 0xC0 then some ((b0 - 0xC0) * 0x40 + (b1 - 0x80), 2)
        else none
      | [] => none
    else if b0 < 0xF0 then
      match rest with
      | b1 :: b2 :: _ =>
        if (0x80 ≤ b1 ∧ b1 < 0xC0) ∧ (0x80 ≤ b2 ∧ b2 < 0xC0) then
          if (b0 - 0xE0) * 0x1000 + (b1 - 0x80) * 0x40 + (b2 - 0x80) < 0x800 ∨
              (0xD800 ≤ (b0 - 0xE0) * 0x1000 + (b1 - 0x80) * 0x40 + (b2 - 0x80) ∧
                (b0 - 0xE0) * 0x1000 + (b1 - 0x80) * 0x40 + (b2 - 0x80) < 0xE000) then
            none
          else some ((b0 - 0xE0) * 0x1000 + (b1 - 0x80) * 0x40 + (b2 - 0x80), 3)
        else none
      | _ => none
    else
      match rest with
      | b1 :: b2 :: b3 :: _ =>
        if (0x80 ≤ b1 ∧ b1 < 0xC0) ∧ (0x80 ≤ b2 ∧ b2 < 0xC0) ∧ (0x80 ≤ b3 ∧ b3 < 0xC0) then
          if (b0 - 0xF0) * 0x40000 + (b1 - 0x80) * 0x1000 + (b2 - 0x80) * 0x40 + (b3 - 0x80)
              < 0x10000 ∨
              0x110000 ≤ (b0 - 0xF0) * 0x40000 + (b1 - 0x80) * 0x1000 + (b2 - 0x80) * 0x40 +
                (b3 - 0x80) then none
          else some
            ((b0 - 0xF0) * 0x40000 + (b1 - 0x80) * 0x1000 + (b2 - 0x80) * 0x40 + (b3 - 0x80), 4)
        else none
      | _ => none

/-- Go `utf8.FullRune`: whether the byte sequence begins with a complete
(even if invalid) UTF-8 encoding — false exactly when the bytes are a
proper prefix of a longer well-formed encoding (valid lead byte, every
present continuation byte inside its accept range, fewer bytes than the
lead requires). -/
def utf8FullRune (bs : Bytes) : Bool :=
  match bs with
  | [] => false
  | b0 :: rest =>
    if b0 < 0xC2 ∨ 0xF5 ≤ b0 then true
    else if utf8LeadLen b0 ≤ bs.length then true
    else
      match rest with
      | [] => false
      | b1 :: rest2 =>
        if b1 < (if b0 = 0xE0 then 0xA0 else if b0 = 0xF0 then 0x90 else 0x80) ∨
            (if b0 = 0xED then 0x9F else if b0 = 0xF4 then 0x8F else 0xBF) < b1 then true
        else
          match rest2 with
          | [] => false
          | b2 :: _ => if b2 < 0x80 ∨ 0xBF < b2 then true else false

/-- Decode a whole byte sequence to code points the way Go string
iteration does: each invalid byte yields `U+FFFD` and consumes one byte.
`fuel` bounds the number of runes (the byte length always suffices). -/
def utf8DecodeAux : Nat → Bytes → List Nat
  | 0, _ => []
  | _, [] => []
  | fuel + 1, b0 :: rest =>
    match utf8DecodeOne (b0 :: rest) with
    | some (r, size) => r :: utf8DecodeAux fuel ((b0 :: rest).drop size)
    | none => 0xFFFD :: utf8DecodeAux fuel rest

/-- The runes of a Go string given by its bytes. -/
def utf8Chars (bs : Bytes) : List Nat := utf8DecodeAux bs.length bs

/-- The bytes of a Lean string literal, UTF-8 encoded (used to write
concrete Go strings in statements). -/
def strBytes (s : String) : Bytes := (s.data.map (fun c => utf8Encode c.toNat)).flatten

/-! ## `strings.ToLower` (Go `unicode.ToLower`, restricted) -/

/-- Go `unicode.ToLower` restricted to the mappings whose lowercase form
lies in ASCII, Latin-1 or the Cyrillic repertoire of the two supported
code pages: the ASCII and Latin-1 capitals, the Cyrillic capitals, and
the compatibility letters `U+0130 İ → i`, `U+0178 Ÿ → ÿ`,
`U+1E9E ẞ → ß`, `U+212A KELVIN → k`, `U+212B ANGSTROM → å`.  Together
with `A-Z` these five are ALL code points Go lowercases into
ASCII/Latin-1, so on every string this function agrees with Go's
`ToLower` on whether the result is one of the resolver's ASCII table
names (the accept/reject boundary of `getEncoding`); the remaining
dropped mappings (Greek, Armenian, ...) never lowercase into that
table. -/
def goToLowerRune (r : Nat) : Nat :=
  if 0x41 ≤ r ∧ r ≤ 0x5A then r + 0x20
  else if 0xC0 ≤ r ∧ r ≤ 0xDE ∧ r ≠ 0xD7 then r + 0x20
  else if 0x400 ≤ r ∧ r ≤ 0x40F then r + 0x50
  else if 0x410 ≤ r ∧ r ≤ 0x42F then r + 0x20
  else if r = 0x490 then 0x491
  else if r = 0x130 then 0x69
  else if r = 0x178 then 0xFF
  else if r = 0x1E9E then 0xDF
  else if r = 0x212A then 0x6B
  else if r = 0x212B then 0xE5
  else r

/-- Go `strings.ToLower` on a byte string: map every rune (invalid bytes
read as `U+FFFD`) and re-encode. -/
def toLowerBytes (bs : Bytes) : Bytes :=
  ((utf8Chars bs).map (fun r => utf8Encode (goToLowerRune r))).flatten

def goToLowerChar (c : Char) : Char := Char.ofNat (goToLowerRune c.toNat)

/-- Go `strings.ToLower` on an encoding-selector name. -/
def goStrToLower (s : String) : String := String.mk (s.data.map goToLowerChar)

/-! ## `path/filepath` (Go, Unix rules) -/

/-- Byte of `path` at index `i` (out-of-range reads return 0; the Clean
loop below never reads out of range). -/
def pcAt (path : Bytes) (i : Nat) : Nat := path.getD i 0

/-- Inner loop of Go `filepath.Clean`: copy one path element (up to the
next separator) from `path` starting at index `r` onto `out`. -/
def copySeg (path : Bytes) (n : Nat) : Nat → Nat → Bytes → Nat × Bytes
  | 0, r, out => (r, out)
  | fuel + 1, r, out =>
    if r < n ∧ pcAt path r ≠ slashB then
      copySeg path n fuel (r + 1) (out ++ [pcAt path r])
    else (r, out)

/-- Backtracking step of Go `filepath.Clean` for a `..` element: drop the
last output element (scan back to the previous separator, not past
`dotdot`). -/
def btFind (out : Bytes) (dotdot : Nat) : Nat → Nat → Nat
  | 0, w => w
  | fuel + 1, w => if dotdot < w ∧ pcAt out w ≠ slashB then btFind out dotdot fuel (w - 1) else w

def backtrack (out : Bytes) (dotdot : Nat) : Bytes :=
  out.take (btFind out dotdot out.length (out.length - 1))

/-- Main loop of Go `filepath.Clean` (Unix separator), a direct
transcription of the reference algorithm; `r` is the read index into
`path`, `out` the output buffer, `dotdot` the limit below which `..` may
not backtrack. -/
def pathCleanAux (path : Bytes) (n : Nat) (rooted : Bool) :
    Nat → Nat → Bytes → Nat → Bytes
  | 0, _, out, _ => out
  | fuel + 1, r, out, dotdot =>
    if n ≤ r then out
    else if pcAt path r = slashB then pathCleanAux path n rooted fuel (r + 1) out dotdot
    else if pcAt path r = dotB ∧ (r + 1 = n ∨ pcAt path (r + 1) = slashB) then
      pathCleanAux path n rooted fuel (r + 1) out dotdot
    else if pcAt path r = dotB ∧ pcAt path (r + 1) = dotB ∧
        (r + 2 = n ∨ pcAt path (r + 2) = slashB) then
      if dotdot < out.length then
        pathCleanAux path n rooted fuel (r + 2) (backtrack out dotdot) dotdot
      else if !rooted then
        pathCleanAux path n rooted fuel (r + 2)
          ((if 0 < out.length then out ++ [slashB] else out) ++ [dotB, dotB])
          (((if 0 < out.length then out ++ [slashB] else out) ++ [dotB, dotB]).length)
      else pathCleanAux path n rooted fuel (r + 2) out dotdot
    else
      match copySeg path n n r
          (if (rooted ∧ out.length ≠ 1) ∨ (¬rooted ∧ out.length ≠ 0) then out ++ [slashB]
            else out) with
      | (r2, out2) => pathCleanAux path n rooted fuel r2 out2 dotdot

/-- Go `filepath.Clean` (Unix). -/
def pathClean (path : Bytes) : Bytes :=
  if path = [] then [dotB]
  else
    if pcAt path 0 = slashB then
      (fun out => if out = [] then [dotB] else out)
        (pathCleanAux path path.length true (path.length + 1) 1 [slashB] 1)
    else
      (fun out => if out = [] then [dotB] else out)
        (pathCleanAux path path.length false (path.length + 1) 0 [] 0)

/-- Go `filepath.Join` of two elements: empty elements are skipped, the
rest joined with `/` and cleaned. -/
def filepathJoin (a b : Bytes) : Bytes :=
  if a = [] then (if b = [] then [] else pathClean b)
  else pathClean (a ++ [slashB] ++ b)

/-- The longest suffix-free part of Go `filepath.Dir`: everything up to
and including the last separator (empty when there is none). -/
def dropAfterLastSlash : Bytes → Bytes
  | [] => []
  | b :: rest =>
    if dropAfterLastSlash rest = [] then (if b = slashB then [slashB] else [])
    else b :: dropAfterLastSlash rest

/-- Go `filepath.Dir` (Unix): drop the final element, then clean. -/
def filepathDir (p : Bytes) : Bytes := pathClean (dropAfterLastSlash p)

/-- The chain of directories Go `os.MkdirAll` creates for `p`: the path
itself and its ancestors, stopping at the root (or at `.` for relative
paths). -/
def dirChain : Nat → Bytes → List Bytes
  | 0, p => [p]
  | fuel + 1, p =>
    if p = [slashB] ∨ p = [dotB] ∨ p = [] then []
    else if filepathDir p = p then [p]
    else p :: dirChain fuel (filepathDir p)

def mkdirAllPaths (p : Bytes) : List Bytes := dirChain (p.length + 1) p

/-! ## Charmaps (`golang.org/x/text/encoding/charmap`) -/

/-- The two code pages the program supports (`charmap.CodePage866` and
`charmap.Windows1251`). -/
inductive Charmap
  | codePage866
  | windows1251
deriving DecidableEq

/-- Decode table of `charmap.CodePage866` for bytes `0x80..0xFF`
(IBM code page 866: Cyrillic, box drawing, and the final specials row). -/
def cp866High (b : Nat) : Nat :=
  if b < 0xB0 then 0x410 + (b - 0x80)
  else if b < 0xE0 then
    match b with
    | 0xB0 => 0x2591 | 0xB1 => 0x2592 | 0xB2 => 0x2593 | 0xB3 => 0x2502
    | 0xB4 => 0x2524 | 0xB5 => 0x2561 | 0xB6 => 0x2562 | 0xB7 => 0x2556
    | 0xB8 => 0x2555 | 0xB9 => 0x2563 | 0xBA => 0x2551 | 0xBB => 0x2557
    | 0xBC => 0x255D | 0xBD => 0x255C | 0xBE => 0x255B | 0xBF => 0x2510
    | 0xC0 => 0x2514 | 0xC1 => 0x2534 | 0xC2 => 0x252C | 0xC3 => 0x251C
    | 0xC4 => 0x2500 | 0xC5 => 0x253C | 0xC6 => 0x255E | 0xC7 => 0x255F
    | 0xC8 => 0x255A | 0xC9 => 0x2554 | 0xCA => 0x2569 | 0xCB => 0x2566
    | 0xCC => 0x2560 | 0xCD => 0x2550 | 0xCE => 0x256C | 0xCF => 0x2567
    | 0xD0 => 0x2568 | 0xD1 => 0x2564 | 0xD2 => 0x2565 | 0xD3 => 0x2559
    | 0xD4 => 0x2558 | 0xD5 => 0x2552 | 0xD6 => 0x2553 | 0xD7 => 0x256B
    | 0xD8 => 0x256A | 0xD9 => 0x2518 | 0xDA => 0x250C | 0xDB => 0x2588
    | 0xDC => 0x2584 | 0xDD => 0x258C | 0xDE => 0x2590 | _ => 0x2580
  else if b < 0xF0 then 0x440 + (b - 0xE0)
  else
    match b with
    | 0xF0 => 0x401 | 0xF1 => 0x451 | 0xF2 => 0x404 | 0xF3 => 0x454
    | 0xF4 => 0x407 | 0xF5 => 0x457 | 0xF6 => 0x40E | 0xF7 => 0x45E
    | 0xF8 => 0xB0 | 0xF9 => 0x2219 | 0xFA => 0xB7 | 0xFB => 0x221A
    | 0xFC => 0x2116 | 0xFD => 0xA4 | 0xFE => 0x25A0 | _ => 0xA0

/-- Decode table of `charmap.Windows1251` for bytes `0x80..0xFF`; the
unassigned byte `0x98` decodes to the replacement rune `U+FFFD` exactly as
in the generated Go table. -/
def win1251High (b : Nat) : Nat :=
  if 0xE0 ≤ b then 0x430 + (b - 0xE0)
  else if 0xC0 ≤ b then 0x410 + (b - 0xC0)
  else
    match b with
    | 0x80 => 0x402 | 0x81 => 0x403 | 0x82 => 0x201A | 0x83 => 0x453
    | 0x84 => 0x201E | 0x85 => 0x2026 | 0x86 => 0x2020 | 0x87 => 0x2021
    | 0x88 => 0x20AC | 0x89 => 0x2030 | 0x8A => 0x409 | 0x8B => 0x2039
    | 0x8C => 0x40A | 0x8D => 0x40C | 0x8E => 0x40B | 0x8F => 0x40F
    | 0x90 => 0x452 | 0x91 => 0x2018 | 0x92 => 0x2019 | 0x93 => 0x201C
    | 0x94 => 0x201D | 0x95 => 0x2022 | 0x96 => 0x2013 | 0x97 => 0x2014
    | 0x98 => 0xFFFD | 0x99 => 0x2122 | 0x9A => 0x459 | 0x9B => 0x203A
    | 0x9C => 0x45A | 0x9D => 0x45C | 0x9E => 0x45B | 0x9F => 0x45F
    | 0xA0 => 0xA0 | 0xA1 => 0x40E | 0xA2 => 0x45E | 0xA3 => 0x408
    | 0xA4 => 0xA4 | 0xA5 => 0x490 | 0xA6 => 0xA6 | 0xA7 => 0xA7
    | 0xA8 => 0x401 | 0xA9 => 0xA9 | 0xAA => 0x404 | 0xAB => 0xAB
    | 0xAC => 0xAC | 0xAD => 0xAD | 0xAE => 0xAE | 0xAF => 0x407
    | 0xB0 => 0xB0 | 0xB1 => 0xB1 | 0xB2 => 0x406 | 0xB3 => 0x456
    | 0xB4 => 0x491 | 0xB5 => 0xB5 | 0xB6 => 0xB6 | 0xB7 => 0xB7
    | 0xB8 => 0x451 | 0xB9 => 0x2116 | 0xBA => 0x454 | 0xBB => 0xBB
    | 0xBC => 0x458 | 0xBD => 0x405 | 0xBE => 0x455 | _ => 0x457

/-- Per-byte decode mapping of a charmap (bytes below `0x80` are ASCII in
both supported code pages). -/
def decodeByte (cm : Charmap) (b : Nat) : Nat :=
  if b < 0x80 then b
  else
    match cm with
    | .codePage866 => cp866High b
    | .windows1251 => win1251High b

/-- Per-rune encode mapping of a charmap: the inverse of the decode table,
excluding the replacement rune, exactly the content of the generated
`encode` arrays in the Go charmap package. -/
def encodeByte (cm : Charmap) (r : Nat) : Option Nat :=
  if r = 0xFFFD then none else (List.range 256).find? (fun b => decodeByte cm b == r)

/-! ## Transforms (`golang.org/x/text/transform`) -/

/-- Errors a transform step can report (`transform.ErrShortDst`,
`transform.ErrShortSrc`, and the repertoire/invalid-input error of the
charmap encoder). -/
inductive TransformErr
  | shortDst
  | shortSrc
  | repertoire
deriving DecidableEq

/-- Decoder loop of `charmap.Charmap`: each input byte becomes one rune,
UTF-8 encoded into a destination buffer of capacity `dstLen`; writing past
the capacity fails with `ErrShortDst` (returning the error makes the
caller abort, so the partially written prefix is irrelevant). -/
def charmapDecodeAux (cm : Charmap) (dstLen : Nat) : Bytes → Bytes → Except TransformErr Bytes
  | [], acc => .ok acc
  | b :: rest, acc =>
    if dstLen < acc.length + (utf8Encode (decodeByte cm b)).length then .error .shortDst
    else charmapDecodeAux cm dstLen rest (acc ++ utf8Encode (decodeByte cm b))

def charmapDecodeTransform (cm : Charmap) (dstLen : Nat) (src : Bytes) :
    Except TransformErr Bytes :=
  charmapDecodeAux cm dstLen src []

/-- Encoder loop of `charmap.Charmap`: decode each UTF-8 rune of the
source and emit its single-byte encoding; a full destination fails with
`ErrShortDst`, an incomplete trailing rune (at `atEOF = false`, as the
program calls it, with `utf8.FullRune` false) with `ErrShortSrc`, and an
invalid-but-complete or unmappable rune with the repertoire error. -/
def charmapEncodeAux (cm : Charmap) (dstLen : Nat) : Nat → Bytes → Bytes → Except TransformErr Bytes
  | 0, _, acc => .ok acc
  | _, [], acc => .ok acc
  | fuel + 1, b0 :: rest, acc =>
    if dstLen ≤ acc.length then .error .shortDst
    else
      match utf8DecodeOne (b0 :: rest) with
      | some (r, size) =>
        match encodeByte cm r with
        | some eb => charmapEncodeAux cm dstLen fuel ((b0 :: rest).drop size) (acc ++ [eb])
        | none => .error .repertoire
      | none =>
        if utf8FullRune (b0 :: rest) then .error .repertoire else .error .shortSrc

def charmapEncodeTransform (cm : Charmap) (dstLen : Nat) (src : Bytes) :
    Except TransformErr Bytes :=
  charmapEncodeAux cm dstLen src.length src []

/-- The `transform.Transformer` values the program can hold in its
`decoder`/`encoder` globals: `transform.Nop` (from `encoding.Nop`) or a
charmap decoder/encoder. -/
inductive Transformer
  | nop
  | dec (cm : Charmap)
  | enc (cm : Charmap)
deriving DecidableEq

/-- One `Transform(dst, src, false)` call on a fresh destination buffer of
capacity `dstLen`, returning the bytes written (`dst[:n]`); `transform.Nop`
copies the source and reports `ErrShortDst` when it does not fit. -/
def Transformer.run : Transformer → Nat → Bytes → Except TransformErr Bytes
  | .nop, dstLen, src => if src.length ≤ dstLen then .ok src else .error .shortDst
  | .dec cm, dstLen, src => charmapDecodeTransform cm dstLen src
  | .enc cm, dstLen, src => charmapEncodeTransform cm dstLen src

/-! ## The encoding resolver (`getEncoding`, `getDecoder`, `getEncoder`) -/

/-- The `encoding.Encoding` values `getEncoding` can return
(`encoding.Nop`, `charmap.CodePage866`, `charmap.Windows1251`). -/
inductive GoEncoding
  | nop
  | codePage866
  | windows1251
deriving DecidableEq

/-- `getEncoding` from `src/cmd/root.go`: case-insensitive fixed table,
`encoding.Nop` for the empty name, an error carrying the offending name
otherwise (the Go `switch` on `strings.ToLower(encName)` written as an
if-chain). -/
def getEncoding (encName : String) : Except String GoEncoding :=
  if encName ≠ "" then
    if goStrToLower encName = "866" then .ok .codePage866
    else if goStrToLower encName = "cp866" then .ok .codePage866
    else if goStrToLower encName = "1251" then .ok .windows1251
    else if goStrToLower encName = "windows-1251" then .ok .windows1251
    else .error ("Unsupported encoding name\"" ++ encName ++ "\"")
  else .ok .nop

def GoEncoding.newDecoder : GoEncoding → Transformer
  | .nop => .nop
  | .codePage866 => .dec .codePage866
  | .windows1251 => .dec .windows1251

def GoEncoding.newEncoder : GoEncoding → Transformer
  | .nop => .nop
  | .codePage866 => .enc .codePage866
  | .windows1251 => .enc .windows1251

/-- `getDecoder` from `src/cmd/root.go`.  The result is an `Option`
because the Go function returns a nilable interface; the `e == nil` branch
of the source is dead (`getEncoding` never returns a nil encoding with a
nil error), so success always carries `some` transformer. -/
def getDecoder (encName : String) : Except String (Option Transformer) :=
  match getEncoding encName with
  | .error e => .error e
  | .ok e => .ok (some e.newDecoder)

/-- `getEncoder` from `src/cmd/root.go` (same shape as `getDecoder`). -/
def getEncoder (encName : String) : Except String (Option Transformer) :=
  match getEncoding encName with
  | .error e => .error e
  | .ok e => .ok (some e.newEncoder)

/-! ## Archive entries and name resolution (`RootCmd.Run`, lines 91-121) -/

/-- One ZIP archive entry as the loop of `RootCmd.Run` consumes it:
`f.Name` (raw stored bytes), `f.NonUTF8`, `f.FileInfo().IsDir()`,
`f.Mode()` and the decompressed content behind `f.Open()`. -/
structure ZipEntry where
  name : Bytes
  nonUTF8 : Bool
  isDir : Bool
  mode : Nat
  content : Bytes
deriving DecidableEq

/-- Lines 100-111: the raw name is decoded through the configured decode
transform (destination buffer `make([]byte, len(fname)*2)`) exactly when
the entry is flagged non-UTF-8 and the decoder is non-nil; a transform
error makes the program panic, modelled as the `Except` error. -/
def resolveFName (decoder : Option Transformer) (e : ZipEntry) : Except TransformErr Bytes :=
  if e.nonUTF8 then
    match decoder with
    | some d => d.run (e.name.length * 2) e.name
    | none => .ok e.name
  else .ok e.name

/-- Lines 100-120: obtain the (possibly decoded) name, lower-case the
join of the output root and the name, then re-encode the whole path
through the output encoder (buffer `make([]byte, len(fpath)*2)`) when one
is configured. -/
def resolveFPath (decoder encoder : Option Transformer) (outPath : Bytes) (e : ZipEntry) :
    Except TransformErr Bytes :=
  match resolveFName decoder e with
  | .error te => .error te
  | .ok fname =>
    match encoder with
    | some enc =>
      enc.run ((toLowerBytes (filepathJoin outPath fname)).length * 2)
        (toLowerBytes (filepathJoin outPath fname))
    | none => .ok (toLowerBytes (filepathJoin outPath fname))

/-! ## Filesystem model

The materializer touches the filesystem through `os.MkdirAll`,
`os.OpenFile(..., O_WRONLY|O_CREATE|O_TRUNC, ...)` and `io.Copy`.  The
state records created directories and file contents; the `fail*` lists
inject the environment's possible errors (permission denied, disk full,
invalid path) at chosen paths, so that error paths are as expressible as
success paths. -/

structure FS where
  dirs : List Bytes
  files : List (Bytes × Bytes)
  failMkdir : List Bytes
  failOpen : List Bytes
  failWrite : List Bytes
deriving DecidableEq

/-- `os.MkdirAll`: create the path and all missing ancestors; fails when
the environment makes any directory on the chain fail. -/
def fsMkdirAll (fs : FS) (p : Bytes) : Except Unit FS :=
  if (mkdirAllPaths p).any (fun a => fs.failMkdir.contains a) then .error ()
  else .ok { fs with dirs := mkdirAllPaths p ++ fs.dirs }

/-- `os.OpenFile` with `O_CREATE|O_TRUNC`: create or truncate the file. -/
def fsCreate (fs : FS) (p : Bytes) : Except Unit FS :=
  if fs.failOpen.contains p then .error ()
  else .ok { fs with files := (p, []) :: fs.files }

/-- `io.Copy` of the entry content into the opened file. -/
def fsWrite (fs : FS) (p c : Bytes) : Except Unit FS :=
  if fs.failWrite.contains p then .error ()
  else .ok { fs with files := (p, c) :: fs.files }

/-- The content now stored at path `p` (newest write wins). -/
def FS.lookupFile (fs : FS) (p : Bytes) : Option Bytes :=
  (fs.files.find? (fun q => q.1 == p)).map (fun q => q.2)

/-! ## The extraction loop (`RootCmd.Run`, lines 82-152) -/

/-- Observable resource and filesystem actions of the loop, in program
order: `openEntry`/`closeEntry` are `f.Open()` and the deferred
`rc.Close()`, `openFile`/`closeFile` the output file handle, `mkdirAll`
and `writeFile` the directory creation and content copy. -/
inductive Event
  | openEntry (i : Nat)
  | closeEntry (i : Nat)
  | mkdirAll (p : Bytes)
  | openFile (p : Bytes)
  | writeFile (p : Bytes)
  | closeFile (p : Bytes)
deriving DecidableEq

/-- How a run can abort: `zip.NewReader` failure, a transform panic
(lines 107/117), or a filesystem error returned from the closure
(lines 132/137/146). -/
inductive RunErr
  | invalidArchive
  | transformPanic (e : TransformErr)
  | fsError
deriving DecidableEq

/-- Result of processing one entry: the outcome, the filename appended to
the report list (appended once the path is resolved, line 121), the
filesystem after the entry, and the entry's events.  Note line 126: the
error of `os.MkdirAll` for a directory entry is discarded by the source,
so a directory entry never produces a filesystem failure. -/
structure StepResult where
  res : Except RunErr Unit
  names : List Bytes
  fs : FS
  events : List Event

def processEntry (dec enc : Option Transformer) (outPath : Bytes) (i : Nat) (e : ZipEntry)
    (fs : FS) : StepResult :=
  match resolveFPath dec enc outPath e with
  | .error te => ⟨.error (.transformPanic te), [], fs, [.openEntry i]⟩
  | .ok fpath =>
    if e.isDir then
      match fsMkdirAll fs fpath with
      | .ok fs1 => ⟨.ok (), [fpath], fs1, [.openEntry i, .mkdirAll fpath]⟩
      | .error _ => ⟨.ok (), [fpath], fs, [.openEntry i, .mkdirAll fpath]⟩
    else
      match fsMkdirAll fs (filepathDir fpath) with
      | .error _ => ⟨.error .fsError, [fpath], fs, [.openEntry i, .mkdirAll (filepathDir fpath)]⟩
      | .ok fs1 =>
        match fsCreate fs1 fpath with
        | .error _ =>
          ⟨.error .fsError, [fpath], fs1,
            [.openEntry i, .mkdirAll (filepathDir fpath), .openFile fpath]⟩
        | .ok fs2 =>
          match fsWrite fs2 fpath e.content with
          | .error _ =>
            ⟨.error .fsError, [fpath], fs2,
              [.openEntry i, .mkdirAll (filepathDir fpath), .openFile fpath,
                .writeFile fpath, .closeFile fpath]⟩
          | .ok fs3 =>
            ⟨.ok (), [fpath], fs3,
              [.openEntry i, .mkdirAll (filepathDir fpath), .openFile fpath,
                .writeFile fpath, .closeFile fpath]⟩

/-- Result of the extraction closure: the error if any, the reported
filenames, the final filesystem, and the full event trace. -/
structure ExtractResult where
  err : Option RunErr
  filenames : List Bytes
  fs : FS
  trace : List Event

/-- The `for _, f := range r.File` loop.  `defers` is the stack of entry
indices whose `rc.Close()` was deferred; Go runs deferred calls in LIFO
order when the closure returns — on every exit path — which is why the
`closeEntry` events are appended at the end rather than per iteration. -/
def extractLoop (dec enc : Option Transformer) (outPath : Bytes) :
    List ZipEntry → Nat → FS → List Bytes → List Event → List Nat → ExtractResult
  | [], _, fs, names, evs, defers => ⟨none, names, fs, evs ++ defers.map Event.closeEntry⟩
  | e :: rest, i, fs, names, evs, defers =>
    match processEntry dec enc outPath i e fs with
    | ⟨.error err, ns, fs1, evE⟩ =>
      ⟨some err, names ++ ns, fs1, evs ++ evE ++ (i :: defers).map Event.closeEntry⟩
    | ⟨.ok _, ns, fs1, evE⟩ =>
      extractLoop dec enc outPath rest (i + 1) fs1 (names ++ ns) (evs ++ evE) (i :: defers)

/-- Lines 82-152: `zip.NewReader` (Go standard library, represented here
by its result) either fails — the closure returns the error before any
entry is touched — or yields the entry list which the loop processes. -/
def extractAll (dec enc : Option Transformer) (outPath : Bytes)
    (parsed : Except Unit (List ZipEntry)) (fs : FS) : ExtractResult :=
  match parsed with
  | .error _ => ⟨some .invalidArchive, [], fs, []⟩
  | .ok entries => extractLoop dec enc outPath entries 0 fs [] [] []

/-! ## Concrete fixtures used in witnesses and counterexamples -/

def outRoot : Bytes := strBytes "/out"

def fs0 : FS := ⟨[], [], [], [], []⟩

def entryA : ZipEntry := ⟨strBytes "a.txt", false, false, 420, [104, 105]⟩

def entryB : ZipEntry := ⟨strBytes "b.txt", false, false, 420, [106]⟩

def entrySubDir : ZipEntry := ⟨strBytes "sub/", false, true, 493, []⟩

def entrySubFile : ZipEntry := ⟨strBytes "sub/a.txt", false, false, 420, [104, 101, 121]⟩

/-! ## Auxiliary notions for the statements -/

/-- Encode a Unicode string (list of code points) through a code page's
per-rune encode table; defined exactly when every rune is representable. -/
def encodeRunes (cm : Charmap) : List Nat → Option Bytes
  | [] => some []
  | r :: rs =>
    match encodeByte cm r, encodeRunes cm rs with
    | some b, some bs => some (b :: bs)
    | _, _ => none

/-- Decode a byte string through a code page's per-byte decode table. -/
def decodeBytes (cm : Charmap) (bs : Bytes) : List Nat := bs.map (decodeByte cm)

/-- Events entry `i` itself can emit: its own stream open, or directory
and file-handle actions — never a stream close (those are deferred). -/
def entryScoped (i : Nat) : Event → Prop
  | .openEntry j => j = i
  | .closeEntry _ => False
  | .mkdirAll _ => True
  | .openFile _ => True
  | .writeFile _ => True
  | .closeFile _ => True


/-! # Theorems -/

/-! ## Structural lemmas about the extraction loop -/

/-- Every event emitted while processing entry `i` is scoped to that
entry; in particular an entry never emits a (deferred) stream close. -/
theorem processEntry_events (dec enc : Option Transformer) (outP : Bytes) (i : Nat)
    (e : ZipEntry) (fs : FS) :
    ∀ ev ∈ (processEntry dec enc outP i e fs).events, entryScoped i ev := by
  unfold processEntry
  repeat' split
  all_goals simp [List.forall_mem_cons, entryScoped]

/-- An entry whose processing fails makes the loop return at once: the
remaining entries are irrelevant, the run behaves as if the failing entry
were the last one. -/
theorem extractLoop_head_err (dec enc : Option Transformer) (outP : Bytes) (e : ZipEntry)
    (rest : List ZipEntry) (i : Nat) (fs : FS) (names : List Bytes) (evs : List Event)
    (defers : List Nat) (err : RunErr)
    (h : (processEntry dec enc outP i e fs).res = .error err) :
    extractLoop dec enc outP (e :: rest) i fs names evs defers =
      extractLoop dec enc outP [e] i fs names evs defers := by
  rcases hp : processEntry dec enc outP i e fs with ⟨res, ns, fs1, evE⟩
  rw [hp] at h
  dsimp only at h
  subst h
  simp [extractLoop, hp]

/-- Trace decomposition of the loop: the trace is the prior events, then
a body of entry-scoped events, then a final block of stream closes; the
body contains no stream close, every stream opened in the body is closed
in the final block, and every already-deferred close reaches the final
block. -/
theorem extractLoop_trace (dec enc : Option Transformer) (outP : Bytes)
    (entries : List ZipEntry) :
    ∀ (i : Nat) (fs : FS) (names : List Bytes) (evs : List Event) (defers : List Nat),
      ∃ (mid : List Event) (ds : List Nat),
        (extractLoop dec enc outP entries i fs names evs defers).trace =
          evs ++ mid ++ List.map Event.closeEntry ds ∧
        (∀ j, Event.closeEntry j ∉ mid) ∧
        (∀ j, Event.openEntry j ∈ mid → j ∈ ds) ∧
        (∀ j ∈ defers, j ∈ ds) := by
  induction entries with
  | nil =>
    intro i fs names evs defers
    refine ⟨[], defers, ?_, ?_, ?_, ?_⟩
    · simp [extractLoop]
    · simp
    · simp
    · exact fun j h => h
  | cons e rest ih =>
    intro i fs names evs defers
    have hsh := processEntry_events dec enc outP i e fs
    rcases hp : processEntry dec enc outP i e fs with ⟨res, ns, fs1, evE⟩
    rw [hp] at hsh
    dsimp only at hsh
    cases res with
    | error err =>
      refine ⟨evE, i :: defers, ?_, ?_, ?_, ?_⟩
      · simp [extractLoop, hp]
      · intro j hj
        have := hsh _ hj
        simp [entryScoped] at this
      · intro j hj
        have := hsh _ hj
        simp only [entryScoped] at this
        simp [this]
      · intro j hj
        exact List.mem_cons_of_mem _ hj
    | ok u =>
      obtain ⟨mid, ds, htr, hcl, hop, hdf⟩ :=
        ih (i + 1) fs1 (names ++ ns) (evs ++ evE) (i :: defers)
      have hstep : extractLoop dec enc outP (e :: rest) i fs names evs defers =
          extractLoop dec enc outP rest (i + 1) fs1 (names ++ ns) (evs ++ evE) (i :: defers) := by
        simp [extractLoop, hp]
      refine ⟨evE ++ mid, ds, ?_, ?_, ?_, ?_⟩
      · rw [hstep, htr]
        simp
      · intro j hj
        rcases List.mem_append.mp hj with hj | hj
        · have := hsh _ hj
          simp [entryScoped] at this
        · exact hcl j hj
      · intro j hj
        rcases List.mem_append.mp hj with hj | hj
        · have := hsh _ hj
          simp only [entryScoped] at this
          rw [this]
          exact hdf i (List.mem_cons_self i defers)
        · exact hop j hj
      · intro j hj
        exact hdf j (List.mem_cons_of_mem _ hj)

/-- The per-rune encode table is a section of the per-byte decode table:
whatever byte the encoder picks for a rune decodes back to that rune. -/
theorem decodeByte_encodeByte (cm : Charmap) (r b : Nat) (h : encodeByte cm r = some b) :
    decodeByte cm b = r := by
  unfold encodeByte at h
  by_cases hr : r = 0xFFFD
  · rw [if_pos hr] at h
    exact absurd h (by simp)
  · rw [if_neg hr] at h
    have := List.find?_some h
    simpa using this

/-! ## The claims -/

/-- Claim C1: with the empty output encoding (whose encoder is the `Nop`
transform, as `getEncoder ""` shows), the resolved output path of every
archive entry equals the lower-casing of the join of the output root and
the (possibly decoded) entry name; in particular a ZIP entry named
`ФАЙЛ.TXT` stored as Windows-1251 bytes with the non-UTF-8 flag set,
input encoding `1251`, output encoding empty and output root `/out`
resolves to `/out/файл.txt`. -/
theorem c1_resolved_path_is_lowercased_join :
    getEncoder "" = .ok (some Transformer.nop) ∧
    (∀ (dec : Option Transformer) (outP : Bytes) (e : ZipEntry) (fname : Bytes),
      resolveFName dec e = .ok fname →
      resolveFPath dec (some Transformer.nop) outP e =
        .ok (toLowerBytes (filepathJoin outP fname))) ∧
    getDecoder "1251" = .ok (some (Transformer.dec Charmap.windows1251)) ∧
    resolveFPath (some (Transformer.dec Charmap.windows1251)) (some Transformer.nop) outRoot
      ⟨[0xD4, 0xC0, 0xC9, 0xCB, 0x2E, 0x54, 0x58, 0x54], true, false, 420, []⟩ =
      .ok (strBytes "/out/файл.txt") := by
  refine ⟨rfl, ?_, rfl, rfl⟩
  intro dec outP e fname h
  simp only [resolveFPath, h]
  simp only [Transformer.run]
  rw [if_pos (by omega)]

/-- Witness for C1: the general part applied to a concrete entry. -/
theorem c1_resolved_path_is_lowercased_join_w :
    resolveFPath none (some Transformer.nop) [] ⟨strBytes "A.txt", false, false, 420, []⟩ =
      .ok (toLowerBytes (filepathJoin [] (strBytes "A.txt"))) :=
  c1_resolved_path_is_lowercased_join.2.1 none [] _ _ rfl

/-- Claim C2: the decode transform is applied to an entry's raw name
exactly when the entry's non-UTF-8 flag is set and a decoder is
configured; an entry flagged as UTF-8 keeps its raw name regardless of
its byte content, and so does a flagged entry when no decoder exists. -/
theorem c2_decode_iff_nonutf8 :
    (∀ (dec : Option Transformer) (e : ZipEntry), e.nonUTF8 = false →
      resolveFName dec e = .ok e.name) ∧
    (∀ (t : Transformer) (e : ZipEntry), e.nonUTF8 = true →
      resolveFName (some t) e = t.run (e.name.length * 2) e.name) ∧
    (∀ e : ZipEntry, e.nonUTF8 = true → resolveFName none e = .ok e.name) :=
  ⟨fun dec e h => by simp [resolveFName, h],
    fun t e h => by simp [resolveFName, h],
    fun e h => by simp [resolveFName, h]⟩

/-- Witness for C2: all three cases at concrete entries (the raw byte
`0xC4` is valid Windows-1251 content, yet an unflagged entry keeps it). -/
theorem c2_decode_iff_nonutf8_w :
    resolveFName (some (Transformer.dec Charmap.windows1251)) ⟨[0xC4], false, false, 0, []⟩ =
        .ok [0xC4] ∧
    resolveFName (some (Transformer.dec Charmap.windows1251)) ⟨[0xC4], true, false, 0, []⟩ =
        (Transformer.dec Charmap.windows1251).run 2 [0xC4] ∧
    resolveFName none ⟨[0xC4], true, false, 0, []⟩ = .ok [0xC4] :=
  ⟨c2_decode_iff_nonutf8.1 _ _ rfl, c2_decode_iff_nonutf8.2.1 _ _ rfl,
    c2_decode_iff_nonutf8.2.2 _ rfl⟩

/-- Claim C3: every case-insensitive variant of `866`/`cp866` resolves to
the CodePage866 decoder/encoder pair, every variant of
`1251`/`windows-1251` to the Windows1251 pair, and every other non-empty
name fails with the configuration error carrying the offending name. -/
theorem c3_encoding_table :
    (∀ s : String, goStrToLower s = "866" ∨ goStrToLower s = "cp866" →
      getEncoding s = .ok GoEncoding.codePage866 ∧
      getDecoder s = .ok (some (Transformer.dec Charmap.codePage866)) ∧
      getEncoder s = .ok (some (Transformer.enc Charmap.codePage866))) ∧
    (∀ s : String, goStrToLower s = "1251" ∨ goStrToLower s = "windows-1251" →
      getEncoding s = .ok GoEncoding.windows1251 ∧
      getDecoder s = .ok (some (Transformer.dec Charmap.windows1251)) ∧
      getEncoder s = .ok (some (Transformer.enc Charmap.windows1251))) ∧
    (∀ s : String, s ≠ "" →
      goStrToLower s ≠ "866" → goStrToLower s ≠ "cp866" →
      goStrToLower s ≠ "1251" → goStrToLower s ≠ "windows-1251" →
      getEncoding s = .error ("Unsupported encoding name\"" ++ s ++ "\"") ∧
      getDecoder s = .error ("Unsupported encoding name\"" ++ s ++ "\"") ∧
      getEncoder s = .error ("Unsupported encoding name\"" ++ s ++ "\"")) := by
  refine ⟨?_, ?_, ?_⟩
  · intro s h
    have hs : s ≠ "" := by
      intro he
      subst he
      rcases h with h | h <;> exact absurd h (by decide)
    have hge : getEncoding s = .ok GoEncoding.codePage866 := by
      unfold getEncoding
      rw [if_pos hs]
      rcases h with h | h <;> rw [h] <;> rfl
    exact ⟨hge, by simp [getDecoder, hge, GoEncoding.newDecoder],
      by simp [getEncoder, hge, GoEncoding.newEncoder]⟩
  · intro s h
    have hs : s ≠ "" := by
      intro he
      subst he
      rcases h with h | h <;> exact absurd h (by decide)
    have hge : getEncoding s = .ok GoEncoding.windows1251 := by
      unfold getEncoding
      rw [if_pos hs]
      rcases h with h | h <;> rw [h] <;> rfl
    exact ⟨hge, by simp [getDecoder, hge, GoEncoding.newDecoder],
      by simp [getEncoder, hge, GoEncoding.newEncoder]⟩
  · intro s hs h1 h2 h3 h4
    have hge : getEncoding s = .error ("Unsupported encoding name\"" ++ s ++ "\"") := by
      unfold getEncoding
      rw [if_pos hs, if_neg h1, if_neg h2, if_neg h3, if_neg h4]
    exact ⟨hge, by simp [getDecoder, hge], by simp [getEncoder, hge]⟩

/-- Witness for C3: a mixed-case supported name for each code page and a
rejected unsupported name. -/
theorem c3_encoding_table_w :
    getEncoding "CP866" = .ok GoEncoding.codePage866 ∧
    getDecoder "Windows-1251" = .ok (some (Transformer.dec Charmap.windows1251)) ∧
    getEncoding "koi8" = .error ("Unsupported encoding name\"" ++ "koi8" ++ "\"") :=
  ⟨(c3_encoding_table.1 "CP866" (Or.inr (by decide))).1,
    (c3_encoding_table.2.1 "Windows-1251" (Or.inr (by decide))).2.1,
    (c3_encoding_table.2.2 "koi8" (by decide) (by decide) (by decide) (by decide)
      (by decide)).1⟩

/-- Claim C4: the empty encoding name resolves to the `Nop` pair, and the
`Nop` transform is the identity: run on any byte sequence `X` (with the
doubled destination buffer the pipeline allocates) it yields `X`. -/
theorem c4_empty_name_identity :
    getEncoding "" = .ok GoEncoding.nop ∧
    getDecoder "" = .ok (some Transformer.nop) ∧
    getEncoder "" = .ok (some Transformer.nop) ∧
    (∀ X : Bytes, Transformer.nop.run (X.length * 2) X = .ok X) := by
  refine ⟨rfl, rfl, rfl, fun X => ?_⟩
  simp only [Transformer.run]
  rw [if_pos (by omega)]

/-- Claim C5: when the downloaded buffer fails to parse as a ZIP archive
(`zip.NewReader` is the Go standard library, represented by its `Except`
result), the pipeline returns the archive error with the filesystem
untouched, no filenames reported and no events — zero files written. -/
theorem c5_invalid_archive_no_writes (dec enc : Option Transformer) (outP : Bytes) (fs : FS) :
    extractAll dec enc outP (.error ()) fs = ⟨some RunErr.invalidArchive, [], fs, []⟩ := rfl

/-- Counterexample to claim C6 as stated: with the directory entry `bad/`
whose `os.MkdirAll` fails (its resolved path `/out/bad` is on the failing
list), the run does not abort — the error is discarded (line 126 of the
source ignores the result of `os.MkdirAll`), the next entry is processed
and its file is written, and the run ends without error. -/
theorem c6_counterexample :
    fsMkdirAll ⟨[], [], [strBytes "/out/bad"], [], []⟩ (strBytes "/out/bad") = .error () ∧
    (extractAll (some Transformer.nop) (some Transformer.nop) outRoot
        (.ok [⟨strBytes "bad/", false, true, 493, []⟩, entryA])
        ⟨[], [], [strBytes "/out/bad"], [], []⟩).err = none ∧
    (extractAll (some Transformer.nop) (some Transformer.nop) outRoot
        (.ok [⟨strBytes "bad/", false, true, 493, []⟩, entryA])
        ⟨[], [], [strBytes "/out/bad"], [], []⟩).fs.lookupFile (strBytes "/out/a.txt") =
      some [104, 105] := ⟨rfl, rfl, rfl⟩

/-- Claim C6 as amended: a filesystem error while creating a file entry's
parent directories, opening the output file or writing its content aborts
the run at the first occurrence — the remaining entries are never
processed and the reported error is the filesystem error — while a
filesystem error for a directory entry's own creation is discarded and
never fails the entry. -/
theorem c6_fs_error_aborts :
    (∀ (dec enc : Option Transformer) (outP : Bytes) (e : ZipEntry) (rest : List ZipEntry)
      (i : Nat) (fs : FS) (names : List Bytes) (evs : List Event) (defers : List Nat),
      (processEntry dec enc outP i e fs).res = .error RunErr.fsError →
      extractLoop dec enc outP (e :: rest) i fs names evs defers =
        extractLoop dec enc outP [e] i fs names evs defers ∧
      (extractLoop dec enc outP (e :: rest) i fs names evs defers).err =
        some RunErr.fsError) ∧
    (∀ (dec enc : Option Transformer) (outP : Bytes) (i : Nat) (e : ZipEntry) (fs : FS)
      (fpath : Bytes), e.isDir = true → resolveFPath dec enc outP e = .ok fpath →
      (processEntry dec enc outP i e fs).res = .ok ()) := by
  constructor
  · intro dec enc outP e rest i fs names evs defers h
    refine ⟨extractLoop_head_err dec enc outP e rest i fs names evs defers _ h, ?_⟩
    rcases hp : processEntry dec enc outP i e fs with ⟨res, ns, fs1, evE⟩
    rw [hp] at h
    dsimp only at h
    subst h
    simp [extractLoop, hp]
  · intro dec enc outP i e fs fpath hd h
    simp only [processEntry, h, hd]
    rcases h1 : fsMkdirAll fs fpath with u | fs1 <;> simp [h1]

/-- Witness for the amended C6: a failing file open aborts a two-entry run
before the second entry, and a directory entry never fails. -/
theorem c6_fs_error_aborts_w :
    (extractLoop (some Transformer.nop) (some Transformer.nop) outRoot [entryB, entryA] 0
        ⟨[], [], [], [strBytes "/out/b.txt"], []⟩ [] [] [] =
      extractLoop (some Transformer.nop) (some Transformer.nop) outRoot [entryB] 0
        ⟨[], [], [], [strBytes "/out/b.txt"], []⟩ [] [] [] ∧
      (extractLoop (some Transformer.nop) (some Transformer.nop) outRoot [entryB, entryA] 0
        ⟨[], [], [], [strBytes "/out/b.txt"], []⟩ [] [] []).err = some RunErr.fsError) ∧
    (processEntry (some Transformer.nop) (some Transformer.nop) outRoot 0 entrySubDir
        fs0).res = .ok () :=
  ⟨c6_fs_error_aborts.1 _ _ _ _ _ _ _ _ _ _ rfl,
    c6_fs_error_aborts.2 _ _ _ _ _ _ (strBytes "/out/sub") rfl rfl⟩

/-- Counterexample to claim C7 as stated: a buffer of twice the input
length does not accommodate every expansion — the one-byte CP866 name
`0xFC` (`№`, three UTF-8 bytes) overflows the two-byte buffer, so the
configured decoder fails with `ErrShortDst` on that entry. -/
theorem c7_counterexample :
    getDecoder "cp866" = .ok (some (Transformer.dec Charmap.codePage866)) ∧
    resolveFName (some (Transformer.dec Charmap.codePage866)) ⟨[0xFC], true, false, 420, []⟩ =
      .error TransformErr.shortDst := ⟨rfl, rfl⟩

/-- Claim C7 as amended: the doubled buffer can overflow (a single
Windows-1251 byte decoding to a three-UTF-8-byte rune fails with
`ErrShortDst`), and any transform failure on an entry is fatal: the run
aborts at the first such failure with the panic error, never reaching the
remaining entries — no per-entry recovery. -/
theorem c7_overflow_and_failure_fatal :
    (getDecoder "1251" = .ok (some (Transformer.dec Charmap.windows1251)) ∧
      resolveFName (some (Transformer.dec Charmap.windows1251)) ⟨[0x98], true, false, 420, []⟩ =
        .error TransformErr.shortDst) ∧
    (∀ (dec enc : Option Transformer) (outP : Bytes) (e : ZipEntry) (rest : List ZipEntry)
      (i : Nat) (fs : FS) (names : List Bytes) (evs : List Event) (defers : List Nat)
      (te : TransformErr), resolveFPath dec enc outP e = .error te →
      extractLoop dec enc outP (e :: rest) i fs names evs defers =
        extractLoop dec enc outP [e] i fs names evs defers ∧
      (extractLoop dec enc outP (e :: rest) i fs names evs defers).err =
        some (RunErr.transformPanic te)) := by
  refine ⟨⟨rfl, rfl⟩, ?_⟩
  intro dec enc outP e rest i fs names evs defers te h
  have hp : processEntry dec enc outP i e fs =
      ⟨.error (.transformPanic te), [], fs, [.openEntry i]⟩ := by
    simp [processEntry, h]
  exact ⟨by simp [extractLoop, hp], by simp [extractLoop, hp]⟩

/-- Witness for the amended C7: a two-entry run aborts on the first
entry's transform overflow and never reaches the second. -/
theorem c7_overflow_and_failure_fatal_w :
    extractLoop (some (Transformer.dec Charmap.windows1251)) (some Transformer.nop) outRoot
        [⟨[0x98], true, false, 420, []⟩, entryA] 0 fs0 [] [] [] =
      extractLoop (some (Transformer.dec Charmap.windows1251)) (some Transformer.nop) outRoot
        [⟨[0x98], true, false, 420, []⟩] 0 fs0 [] [] [] ∧
    (extractLoop (some (Transformer.dec Charmap.windows1251)) (some Transformer.nop) outRoot
        [⟨[0x98], true, false, 420, []⟩, entryA] 0 fs0 [] [] []).err =
      some (RunErr.transformPanic TransformErr.shortDst) :=
  c7_overflow_and_failure_fatal.2 _ _ _ _ _ _ _ _ _ _ _ rfl

/-- Claim C8: for every file entry the parent-directory creation event
precedes the file-open event (the tail after the `mkdirAll` of the
resolved path's directory holds only the file's own open/write/close),
and the concrete `sub/` + `sub/a.txt` archive produces `/out/sub` as a
directory and `/out/sub/a.txt` with matching content in either entry
order. -/
theorem c8_parents_created_before_open :
    (∀ (dec enc : Option Transformer) (outP : Bytes) (i : Nat) (e : ZipEntry) (fs : FS)
      (fpath : Bytes), e.isDir = false → resolveFPath dec enc outP e = .ok fpath →
      ∃ tl : List Event, (processEntry dec enc outP i e fs).events =
          Event.openEntry i :: Event.mkdirAll (filepathDir fpath) :: tl ∧
        ∀ ev ∈ tl, ev = Event.openFile fpath ∨ ev = Event.writeFile fpath ∨
          ev = Event.closeFile fpath) ∧
    ((extractAll (some Transformer.nop) (some Transformer.nop) outRoot
        (.ok [entrySubDir, entrySubFile]) fs0).err = none ∧
      strBytes "/out/sub" ∈ (extractAll (some Transformer.nop) (some Transformer.nop) outRoot
        (.ok [entrySubDir, entrySubFile]) fs0).fs.dirs ∧
      (extractAll (some Transformer.nop) (some Transformer.nop) outRoot
        (.ok [entrySubDir, entrySubFile]) fs0).fs.lookupFile (strBytes "/out/sub/a.txt") =
        some [104, 101, 121]) ∧
    ((extractAll (some Transformer.nop) (some Transformer.nop) outRoot
        (.ok [entrySubFile, entrySubDir]) fs0).err = none ∧
      strBytes "/out/sub" ∈ (extractAll (some Transformer.nop) (some Transformer.nop) outRoot
        (.ok [entrySubFile, entrySubDir]) fs0).fs.dirs ∧
      (extractAll (some Transformer.nop) (some Transformer.nop) outRoot
        (.ok [entrySubFile, entrySubDir]) fs0).fs.lookupFile (strBytes "/out/sub/a.txt") =
        some [104, 101, 121]) := by
  refine ⟨?_, ⟨rfl, by decide, rfl⟩, ⟨rfl, by decide, rfl⟩⟩
  intro dec enc outP i e fs fpath hd h
  simp only [processEntry, h, hd]
  rcases h1 : fsMkdirAll fs (filepathDir fpath) with u | fs1 <;> simp only [h1]
  · exact ⟨[], rfl, by simp⟩
  · rcases h2 : fsCreate fs1 fpath with u | fs2 <;> simp only [h2]
    · exact ⟨[Event.openFile fpath], rfl, by simp⟩
    · rcases h3 : fsWrite fs2 fpath e.content with u | fs3 <;> simp only [h3]
      · exact ⟨[Event.openFile fpath, Event.writeFile fpath, Event.closeFile fpath], rfl,
          by simp [List.forall_mem_cons]⟩
      · exact ⟨[Event.openFile fpath, Event.writeFile fpath, Event.closeFile fpath], rfl,
          by simp [List.forall_mem_cons]⟩

/-- Witness for C8: the general part applied to a concrete file entry. -/
theorem c8_parents_created_before_open_w :
    ∃ tl : List Event,
      (processEntry (some Transformer.nop) (some Transformer.nop) outRoot 0 entryA
          fs0).events =
        Event.openEntry 0 :: Event.mkdirAll (filepathDir (strBytes "/out/a.txt")) :: tl ∧
      ∀ ev ∈ tl, ev = Event.openFile (strBytes "/out/a.txt") ∨
        ev = Event.writeFile (strBytes "/out/a.txt") ∨
        ev = Event.closeFile (strBytes "/out/a.txt") :=
  c8_parents_created_before_open.1 _ _ _ 0 _ _ (strBytes "/out/a.txt") rfl rfl

/-- Counterexample to claim C9 as stated: in a two-file run, the first
entry's content stream is still open when the second entry is opened and
processed — its deferred close is the very last event of the trace, not a
same-iteration release. -/
theorem c9_counterexample :
    (extractAll (some Transformer.nop) (some Transformer.nop) outRoot (.ok [entryA, entryB])
        fs0).trace =
      [Event.openEntry 0, Event.mkdirAll outRoot, Event.openFile (strBytes "/out/a.txt"),
        Event.writeFile (strBytes "/out/a.txt"), Event.closeFile (strBytes "/out/a.txt"),
        Event.openEntry 1, Event.mkdirAll outRoot, Event.openFile (strBytes "/out/b.txt"),
        Event.writeFile (strBytes "/out/b.txt"), Event.closeFile (strBytes "/out/b.txt"),
        Event.closeEntry 1, Event.closeEntry 0] ∧
    Event.openEntry 1 ∈ ((extractAll (some Transformer.nop) (some Transformer.nop) outRoot
        (.ok [entryA, entryB]) fs0).trace.take 6) ∧
    Event.closeEntry 0 ∉ ((extractAll (some Transformer.nop) (some Transformer.nop) outRoot
        (.ok [entryA, entryB]) fs0).trace.take 11) := ⟨rfl, by decide, by decide⟩

/-- Claim C9 as amended: output file handles are released within the same
entry (the file entry's own event list ends with its `closeFile`), while
all archive-entry content streams are released together only when the
extraction function exits — on success and error paths alike the trace is
a close-free body followed by the block of deferred stream closes, and
every stream opened in the body is closed in that final block. -/
theorem c9_streams_closed_at_exit :
    (∀ (dec enc : Option Transformer) (outP : Bytes) (entries : List ZipEntry) (fs : FS),
      ∃ (mid : List Event) (ds : List Nat),
        (extractAll dec enc outP (.ok entries) fs).trace =
          mid ++ List.map Event.closeEntry ds ∧
        (∀ j, Event.closeEntry j ∉ mid) ∧
        (∀ j, Event.openEntry j ∈ mid → Event.closeEntry j ∈ List.map Event.closeEntry ds)) ∧
    (∀ (dec enc : Option Transformer) (outP : Bytes) (i : Nat) (e : ZipEntry) (fs : FS)
      (fpath : Bytes) (fs1 fs2 : FS), e.isDir = false →
      resolveFPath dec enc outP e = .ok fpath →
      fsMkdirAll fs (filepathDir fpath) = .ok fs1 → fsCreate fs1 fpath = .ok fs2 →
      (processEntry dec enc outP i e fs).events =
        [Event.openEntry i, Event.mkdirAll (filepathDir fpath), Event.openFile fpath,
          Event.writeFile fpath, Event.closeFile fpath]) := by
  constructor
  · intro dec enc outP entries fs
    obtain ⟨mid, ds, htr, hcl, hop, _⟩ := extractLoop_trace dec enc outP entries 0 fs [] [] []
    refine ⟨mid, ds, ?_, hcl, ?_⟩
    · simpa [extractAll] using htr
    · intro j hj
      exact List.mem_map_of_mem _ (hop j hj)
  · intro dec enc outP i e fs fpath fs1 fs2 hd h h1 h2
    simp only [processEntry, h, hd, h1, h2]
    rcases h3 : fsWrite fs2 fpath e.content with u | fs3 <;> simp [h3]

/-- Witness for the amended C9: both parts at concrete inputs. -/
theorem c9_streams_closed_at_exit_w :
    (∃ (mid : List Event) (ds : List Nat),
      (extractAll (some Transformer.nop) (some Transformer.nop) outRoot (.ok [entryA])
          fs0).trace = mid ++ List.map Event.closeEntry ds ∧
      (∀ j, Event.closeEntry j ∉ mid) ∧
      (∀ j, Event.openEntry j ∈ mid → Event.closeEntry j ∈ List.map Event.closeEntry ds)) ∧
    (processEntry (some Transformer.nop) (some Transformer.nop) outRoot 0 entryA fs0).events =
      [Event.openEntry 0, Event.mkdirAll (filepathDir (strBytes "/out/a.txt")),
        Event.openFile (strBytes "/out/a.txt"), Event.writeFile (strBytes "/out/a.txt"),
        Event.closeFile (strBytes "/out/a.txt")] :=
  ⟨c9_streams_closed_at_exit.1 _ _ _ _ _,
    c9_streams_closed_at_exit.2 _ _ _ 0 _ _ (strBytes "/out/a.txt")
      ⟨[strBytes "/out"], [], [], [], []⟩
      ⟨[strBytes "/out"], [(strBytes "/out/a.txt", [])], [], [], []⟩ rfl rfl rfl rfl⟩

/-- Claim C10: for each supported code page, encoding a Unicode string
(every rune representable) and decoding the result through the same code
page reproduces the original string. -/
theorem c10_roundtrip (cm : Charmap) (rs : List Nat) (bs : Bytes)
    (h : encodeRunes cm rs = some bs) : decodeBytes cm bs = rs := by
  induction rs generalizing bs with
  | nil =>
    simp [encodeRunes] at h
    subst h
    rfl
  | cons r rs ih =>
    unfold encodeRunes at h
    rcases heb : encodeByte cm r with _ | b <;> rw [heb] at h
    · simp at h
    · rcases her : encodeRunes cm rs with _ | bs2 <;> rw [her] at h
      · simp at h
      · simp only [Option.some.injEq] at h
        subst h
        show List.map (decodeByte cm) (b :: bs2) = r :: rs
        rw [List.map_cons, decodeByte_encodeByte cm r b heb,
          show List.map (decodeByte cm) bs2 = rs from ih bs2 her]

/-- Witness for C10: the CP866-representable string `ж№` round-trips. -/
theorem c10_roundtrip_w : encodeRunes Charmap.codePage866 [0x436, 0x2116] = some [0xA6, 0xFC] ∧
    decodeBytes Charmap.codePage866 [0xA6, 0xFC] = [0x436, 0x2116] :=
  ⟨rfl, c10_roundtrip Charmap.codePage866 [0x436, 0x2116] [0xA6, 0xFC] rfl⟩

end Dnuz
